import Mathlib

/-!
Verification development for the arXiv math.AG weekly curation pipeline
(`main.py`).  The source is shallowly embedded: Python strings become
`List Char`, floats become `ℚ`, the stateful/IO parts become functions over
explicit oracle records, and fallible code returns `Except`.
-/

namespace AGW

/-- Model of Python `str.lower` (ASCII case folding; the characters relevant
to the profile terms and patterns are ASCII, and CJK characters are fixed
points of lowering in both systems). -/
def lowerL (s : List Char) : List Char := s.map Char.toLower

/-- Model of `" ".join(xs)`. -/
def joinSpace (xs : List (List Char)) : List Char := List.intercalate [' '] xs

/-- Prefix test on character lists (model of Python `startswith` used to
build the substring test). -/
def startsWithL : List Char → List Char → Bool
  | [], _ => true
  | _ :: _, [] => false
  | l :: ls, c :: cs => l == c && startsWithL ls cs

/-- Substring test: model of the Python `in` operator on strings. -/
def containsSub (n : List Char) : List Char → Bool
  | [] => startsWithL n []
  | h@(_ :: t) => startsWithL n h || containsSub n t

/-- Model of a raw feed value for the `updated` / `published` fields:
the Python value may be a string, `None`, or (defensively) any non-string
object.  A missing key is delivered as the empty string by
`e.get(k, "")`, hence covered by `str []`. -/
inductive PyVal where
  | none
  | str (s : List Char)
  | nonStr
deriving DecidableEq

/-- One normalized feed entry, as built by `parse_atom`. -/
structure Entry where
  id : List Char
  title : List Char
  summary : List Char
  authors : List (List Char)
  published : PyVal
  updated : PyVal
  categories : List (List Char)
  abs_url : List Char
  pdf_url : Option (List Char)
deriving DecidableEq

/-- A `keywords` profile item: `{term, weight}`. -/
structure Keyword where
  term : List Char
  weight : ℚ
deriving DecidableEq

/-- An `authors_priority` profile item: `{name, weight}`. -/
structure PriorityAuthor where
  name : List Char
  weight : ℚ
deriving DecidableEq

/-- An `msc_terms` profile item: `{term, weight}`. -/
structure MscTerm where
  term : List Char
  weight : ℚ
deriving DecidableEq

/-- The `profile` section of the configuration. -/
structure Profile where
  keywords : List Keyword
  authors_priority : List PriorityAuthor
  msc_terms : List MscTerm
  exclude : List (List Char)
deriving DecidableEq

/-- The `scoring` section of the configuration (weights with their
defaults already resolved, as `cfg["scoring"].get(k, default)` does). -/
structure ScoringCfg where
  title_weight : ℚ
  abstract_weight : ℚ
  author_weight : ℚ
  category_weight : ℚ
  threshold : ℚ
deriving DecidableEq

/-- The `limits` section of the configuration. -/
structure Limits where
  max_fetch : Nat
  lookback_days : ℤ
  max_details : Nat
deriving DecidableEq

/-- The `output` section of the configuration. -/
structure OutputCfg where
  filename_prefix : List Char
  include_others_titles : Bool
deriving DecidableEq

/-- The whole configuration record. -/
structure Cfg where
  profile : Profile
  scoring : ScoringCfg
  limits : Limits
  output : OutputCfg
deriving DecidableEq

/-- Body of one iteration of the keyword loop of `score_entry`: both
bonuses may fire for the same term. -/
def kwStep (cfg : Cfg) (title abstr : List Char) (s : ℚ) (kw : Keyword) : ℚ :=
  let term := lowerL kw.term
  let s := if containsSub term title then s + kw.weight * cfg.scoring.title_weight else s
  if containsSub term abstr then s + kw.weight * cfg.scoring.abstract_weight else s

/-- Body of one iteration of the priority-author loop of `score_entry`. -/
def auStep (cfg : Cfg) (authors : List Char) (s : ℚ) (au : PriorityAuthor) : ℚ :=
  if containsSub (lowerL au.name) authors then s + au.weight * cfg.scoring.author_weight else s

/-- Body of one iteration of the category-term loop of `score_entry`. -/
def msStep (cfg : Cfg) (cats : List Char) (s : ℚ) (ms : MscTerm) : ℚ :=
  if containsSub (lowerL ms.term) cats then s + ms.weight * cfg.scoring.category_weight else s

/-- The exclude-term test of `score_entry`:
`bad.lower() in title or bad.lower() in abstr`. -/
def exMatches (title abstr : List Char) (bad : List Char) : Bool :=
  containsSub (lowerL bad) title || containsSub (lowerL bad) abstr

/-- Body of one iteration of the exclude loop of `score_entry`: a fixed
penalty of 2.0, applied once per matching term. -/
def exStep (title abstr : List Char) (s : ℚ) (bad : List Char) : ℚ :=
  if exMatches title abstr bad then s - 2 else s

/-- Embedding of `score_entry(e, cfg)`: sequential accumulation over the
four profile lists, exactly mirroring the four `for` loops of the source
(scores modelled over `ℚ`). -/
def score_entry (e : Entry) (cfg : Cfg) : ℚ :=
  let title := lowerL e.title
  let abstr := lowerL e.summary
  let cats := lowerL (joinSpace e.categories)
  let authors := lowerL (joinSpace e.authors)
  cfg.profile.exclude.foldl (exStep title abstr)
    (cfg.profile.msc_terms.foldl (msStep cfg cats)
      (cfg.profile.authors_priority.foldl (auStep cfg authors)
        (cfg.profile.keywords.foldl (kwStep cfg title abstr) 0)))

/-- Specification-side contribution of one keyword to the score. -/
def kwContrib (cfg : Cfg) (title abstr : List Char) (kw : Keyword) : ℚ :=
  (if containsSub (lowerL kw.term) title then kw.weight * cfg.scoring.title_weight else 0) +
  (if containsSub (lowerL kw.term) abstr then kw.weight * cfg.scoring.abstract_weight else 0)

/-- Specification-side contribution of one priority author to the score. -/
def auContrib (cfg : Cfg) (authors : List Char) (au : PriorityAuthor) : ℚ :=
  if containsSub (lowerL au.name) authors then au.weight * cfg.scoring.author_weight else 0

/-- Specification-side contribution of one category term to the score. -/
def msContrib (cfg : Cfg) (cats : List Char) (ms : MscTerm) : ℚ :=
  if containsSub (lowerL ms.term) cats then ms.weight * cfg.scoring.category_weight else 0

/-- The accumulation step of `main`: keep each entry paired with its score
when `s >= cfg["scoring"]["threshold"]` (the `items` list before sorting). -/
def scoreListed (entries : List Entry) (cfg : Cfg) : List (Entry × ℚ) :=
  (entries.map fun e => (e, score_entry e cfg)).filter fun p =>
    decide (cfg.scoring.threshold ≤ p.2)

/-- The Boolean comparison realizing
`items.sort(key=lambda x: x["score"], reverse=True)`: descending by score. -/
def scoreDescBool (a b : Entry × ℚ) : Bool := decide (b.2 ≤ a.2)

/-- Embedding of the threshold filter plus the stable descending sort of
`main` (Python `list.sort` is a stable sort, modelled by `mergeSort`). -/
def rankItems (entries : List Entry) (cfg : Cfg) : List (Entry × ℚ) :=
  (scoreListed entries cfg).mergeSort scoreDescBool

/-- Model of an aware or naive `datetime`: `ts` counts seconds since the
epoch (UTC seconds for aware values, wall-clock seconds for naive ones),
`aware` records whether the value carries a UTC offset. -/
structure PyDateTime where
  ts : ℤ
  aware : Bool
deriving DecidableEq

/-- The Python exception relevant to the lookback filter. -/
inductive PyErr where
  | typeError
deriving DecidableEq

/-- One decimal digit value. -/
def digitVal (c : Char) : Option Nat :=
  if c.isDigit then some (c.toNat - 48) else Option.none

/-- Parse exactly two digits. -/
def parse2 : List Char → Option (Nat × List Char)
  | a :: b :: rest => do
    pure ((← digitVal a) * 10 + (← digitVal b), rest)
  | _ => Option.none

/-- Parse exactly four digits. -/
def parse4 : List Char → Option (Nat × List Char)
  | a :: b :: c :: d :: rest => do
    pure (((← digitVal a) * 10 + (← digitVal b)) * 100 +
      ((← digitVal c) * 10 + (← digitVal d)), rest)
  | _ => Option.none

/-- Require a literal character. -/
def expectCh (c : Char) : List Char → Option (List Char)
  | x :: rest => if x = c then some rest else Option.none
  | [] => Option.none

/-- Gregorian leap year test. -/
def isLeap (y : Nat) : Bool :=
  y % 4 == 0 && (y % 100 != 0 || y % 400 == 0)

/-- Length of a month. -/
def daysInMonth (y m : Nat) : Nat :=
  if m = 2 then (if isLeap y then 29 else 28)
  else if m = 4 ∨ m = 6 ∨ m = 9 ∨ m = 11 then 30
  else 31

/-- Days from 1970-01-01 to the civil date `y-m-d` (standard civil-date
conversion, floor divisions). -/
def daysFromCivil (y m d : ℤ) : ℤ :=
  let y' := if m ≤ 2 then y - 1 else y
  let era := Int.fdiv y' 400
  let yoe := y' - era * 400
  let mp := Int.emod (m + 9) 12
  let doy := Int.fdiv (153 * mp + 2) 5 + d - 1
  let doe := yoe * 365 + Int.fdiv yoe 4 - Int.fdiv yoe 100 + doy
  era * 146097 + doe - 719468

/-- Parse the time-of-day part `HH[:MM[:SS]]`, returning seconds within
the day (models the non-fractional forms accepted by
`datetime.fromisoformat`). -/
def parseTime (s : List Char) : Option (ℤ × List Char) := do
  let (h, r1) ← parse2 s
  if 24 ≤ h then Option.none
  else
    match r1 with
    | ':' :: r2 => do
      let (mi, r3) ← parse2 r2
      if 60 ≤ mi then Option.none
      else
        match r3 with
        | ':' :: r4 => do
          let (se, r5) ← parse2 r4
          if 60 ≤ se then Option.none
          else pure (((h * 3600 + mi * 60 + se : Nat) : ℤ), r5)
        | _ => pure (((h * 3600 + mi * 60 : Nat) : ℤ), r3)
    | _ => pure (((h * 3600 : Nat) : ℤ), r1)

/-- Parse a UTC offset `±HH:MM`, returning its value in seconds. -/
def parseOffset (s : List Char) : Option (ℤ × List Char) :=
  match s with
  | c :: rest =>
    if c = '+' ∨ c = '-' then do
      let (oh, r1) ← parse2 rest
      match r1 with
      | ':' :: r2 => do
        let (om, r3) ← parse2 r2
        if oh ≤ 23 ∧ om ≤ 59 then
          let secs : ℤ := (oh * 3600 + om * 60 : Nat)
          pure (if c = '+' then secs else -secs, r3)
        else Option.none
      | _ => Option.none
    else Option.none
  | [] => Option.none

/-- Model of `datetime.fromisoformat` on the formats the pipeline meets:
`YYYY-MM-DD`, optionally followed by one separator character and
`HH[:MM[:SS]]`, optionally followed by a `±HH:MM` offset (fractional
seconds and the other extended forms are out of the modelled subset).
Dates are validated; an offset makes the result aware. -/
def fromisoformat (s : List Char) : Option PyDateTime := do
  let (y, r1) ← parse4 s
  let r2 ← expectCh '-' r1
  let (mo, r3) ← parse2 r2
  let r4 ← expectCh '-' r3
  let (d, r5) ← parse2 r4
  if 1 ≤ y ∧ 1 ≤ mo ∧ mo ≤ 12 ∧ 1 ≤ d ∧ d ≤ daysInMonth y mo then
    let base : ℤ := 86400 * daysFromCivil y mo d
    match r5 with
    | [] => pure ⟨base, false⟩
    | _sep :: r6 => do
      let (tsec, r7) ← parseTime r6
      match r7 with
      | [] => pure ⟨base + tsec, false⟩
      | _ => do
        let (off, r8) ← parseOffset r7
        match r8 with
        | [] => pure ⟨base + tsec - off, true⟩
        | _ => Option.none
  else Option.none

/-- Model of `s.replace("Z", "+00:00")`. -/
def replaceZ : List Char → List Char
  | [] => []
  | c :: rest =>
    if c = 'Z' then '+' :: '0' :: '0' :: ':' :: '0' :: '0' :: replaceZ rest
    else c :: replaceZ rest

/-- Embedding of the inner `parse_iso`: `.replace` on a non-string raises
and the `except` clause turns any failure into `None`. -/
def parse_iso (v : PyVal) : Option PyDateTime :=
  match v with
  | .str s => fromisoformat (replaceZ s)
  | _ => Option.none

/-- The parsed timestamps of an entry, in source order
(`[parse_iso(updated), parse_iso(published)]` with the `None` results
dropped by the comprehension filter). -/
def parsedTimestamps (e : Entry) : List PyDateTime :=
  [parse_iso e.updated, parse_iso e.published].filterMap id

/-- Model of Python `max([a, b])` on datetimes: comparing an aware value
with a naive one raises `TypeError`. -/
def pyMaxDT (a b : PyDateTime) : Except PyErr PyDateTime :=
  if a.aware = b.aware then .ok (if a.ts < b.ts then b else a)
  else .error .typeError

/-- Model of `(now - cand).days <= days`: subtracting a naive candidate
from the aware `now` raises `TypeError`; `timedelta.days` floors. -/
def lookbackOf (cand : PyDateTime) (days nowTs : ℤ) : Except PyErr Bool :=
  if cand.aware then .ok (decide (Int.fdiv (nowTs - cand.ts) 86400 ≤ days))
  else .error .typeError

/-- Embedding of `in_lookback(e, days)`; `nowTs` is the UTC timestamp of
`datetime.now(timezone.utc)`. -/
def in_lookback (e : Entry) (days nowTs : ℤ) : Except PyErr Bool :=
  match parse_iso e.updated, parse_iso e.published with
  | Option.none, Option.none => .ok true
  | some d, Option.none => lookbackOf d days nowTs
  | Option.none, some d => lookbackOf d days nowTs
  | some d1, some d2 =>
    match pyMaxDT d1 d2 with
    | .ok m => lookbackOf m days nowTs
    | .error err => .error err

/-- Whitespace class of the regexes (`\s`): ASCII whitespace plus the
ideographic space. -/
def isSpaceP (c : Char) : Bool :=
  c == ' ' || c == '\t' || c == '\n' || c == '\r' || c == '\x0b' ||
    c == '\x0c' || c == '　'

/-- Word-character class of the regexes (`\w`): ASCII alphanumerics and
underscore, plus the kana and unified-ideograph blocks met in the
localized patterns. -/
def isWordP (c : Char) : Bool :=
  c.isAlphanum || c == '_' ||
    (decide (0x3040 ≤ c.toNat) && decide (c.toNat ≤ 0x30FF)) ||
    (decide (0x4E00 ≤ c.toNat) && decide (c.toNat ≤ 0x9FFF))

/-- The `\b` condition before a word character: true at the start of the text or after a
non-word character. -/
def boundaryB : Option Char → Bool
  | Option.none => true
  | some c => !(isWordP c)

/-- The `\b` condition after a word character: true at the end of the text or before a
non-word character. -/
def wordEndB : List Char → Bool
  | [] => true
  | c :: _ => !(isWordP c)

/-- Case-insensitive literal match returning the rest of the text (the
literal is given lower case). -/
def startsWithCI : List Char → List Char → Option (List Char)
  | [], s => some s
  | _ :: _, [] => Option.none
  | l :: ls, c :: cs => if c.toLower = l then startsWithCI ls cs else Option.none

/-- A match-at-position predicate: given the previous character (for the
word-boundary lookbehind) and the suffix from this position, does the
pattern match here? -/
abbrev MatchPred := Option Char → List Char → Bool

/-- Pattern 1, `\bMain\s+Theorem\b.*` (case-insensitive): the `\s+` run is
maximal because the following literal starts with a non-space. -/
def matchMainTheorem : MatchPred := fun prev s =>
  boundaryB prev &&
    match startsWithCI ('m' :: 'a' :: 'i' :: 'n' :: []) s with
    | some r =>
      match r with
      | c :: _ =>
        isSpaceP c &&
          (match startsWithCI ('t' :: 'h' :: 'e' :: 'o' :: 'r' :: 'e' :: 'm' :: [])
              (r.dropWhile isSpaceP) with
          | some r2 => wordEndB r2
          | Option.none => false)
      | [] => false
    | Option.none => false

/-- Pattern 2, `\bTheorem\s+\d+[^:]*:.*`: after the literal, at least one
whitespace character, then a digit at the end of the whitespace run, then a
colon somewhere later (the `[^:]*` loop reaches the first colon). -/
def matchTheoremNum : MatchPred := fun prev s =>
  boundaryB prev &&
    match startsWithCI ('t' :: 'h' :: 'e' :: 'o' :: 'r' :: 'e' :: 'm' :: []) s with
    | some r =>
      match r with
      | c :: _ =>
        isSpaceP c &&
          (match r.dropWhile isSpaceP with
          | d :: rest => d.isDigit && rest.contains ':'
          | [] => false)
      | [] => false
    | Option.none => false

/-- Pattern 3, `\bTheorem\b[^:]*:.*`. -/
def matchTheoremColon : MatchPred := fun prev s =>
  boundaryB prev &&
    match startsWithCI ('t' :: 'h' :: 'e' :: 'o' :: 'r' :: 'e' :: 'm' :: []) s with
    | some r => wordEndB r && r.contains ':'
    | Option.none => false

/-- Pattern 4, `\bmain result\b.*`. -/
def matchMainResult : MatchPred := fun prev s =>
  boundaryB prev &&
    match startsWithCI ('m' :: 'a' :: 'i' :: 'n' :: ' ' :: 'r' :: 'e' :: 's' :: 'u' :: 'l' :: 't' :: []) s with
    | some r => wordEndB r
    | Option.none => false

/-- Pattern 5, `\bwe (prove|show|establish) that\b.*`. -/
def matchWeProve : MatchPred := fun prev s =>
  let tryVerb : List Char → List Char → Bool := fun v r =>
    match startsWithCI v r with
    | some r2 =>
      match startsWithCI (' ' :: 't' :: 'h' :: 'a' :: 't' :: []) r2 with
      | some r3 => wordEndB r3
      | Option.none => false
    | Option.none => false
  boundaryB prev &&
    match startsWithCI ('w' :: 'e' :: ' ' :: []) s with
    | some r =>
      tryVerb ('p' :: 'r' :: 'o' :: 'v' :: 'e' :: []) r ||
        tryVerb ('s' :: 'h' :: 'o' :: 'w' :: []) r ||
        tryVerb ('e' :: 's' :: 't' :: 'a' :: 'b' :: 'l' :: 'i' :: 's' :: 'h' :: []) r
    | Option.none => false

/-- Terminator class `[。．\n]` of pattern 6. -/
def jpTerminator (c : Char) : Bool := c == '。' || c == '．' || c == '\n'

/-- Pattern 6, `(主定理|主結果|本論文の主結果)[^。\n]*[。．\n].*`: one of the
alternatives, then a terminator reachable through non-`。`, non-newline
characters, which is equivalent to a terminator occurring at all. -/
def matchJpMain : MatchPred := fun _ s =>
  (startsWithL ('主' :: '定' :: '理' :: []) s && (s.drop 3).any jpTerminator) ||
    (startsWithL ('主' :: '結' :: '果' :: []) s && (s.drop 3).any jpTerminator) ||
    (startsWithL ('本' :: '論' :: '文' :: 'の' :: '主' :: '結' :: '果' :: []) s &&
      (s.drop 7).any jpTerminator)

/-- Pattern 7, `(定理\s*\d*[^：]*：.*)`: the flexible middle accepts
anything without a full-width colon, so the pattern matches exactly when a
full-width colon occurs after the literal. -/
def matchJpTheorem : MatchPred := fun _ s =>
  startsWithL ('定' :: '理' :: []) s && (s.drop 2).contains '：'

/-- The fixed pattern priority list `_DEF_THEOREM_PATTERNS`, as match-at
predicates in source order. -/
def _DEF_THEOREM_PATTERNS : List MatchPred :=
  [matchMainTheorem, matchTheoremNum, matchTheoremColon, matchMainResult,
    matchWeProve, matchJpMain, matchJpTheorem]

/-- Leftmost-match scan of `re.search`: try the predicate at each position
from the left, tracking the previous character for the lookbehind. -/
def searchAux (p : MatchPred) : Option Char → Nat → List Char → Option Nat
  | prev, i, [] => if p prev [] then some i else Option.none
  | prev, i, c :: rest =>
    if p prev (c :: rest) then some i else searchAux p (some c) (i + 1) rest

/-- Start position of the leftmost match of one pattern. -/
def searchPat (p : MatchPred) (t : List Char) : Option Nat :=
  searchAux p Option.none 0 t

/-- The `for pat in _DEF_THEOREM_PATTERNS` loop: first pattern with a
match wins, later patterns are not tried. -/
def findFirstStart : List MatchPred → List Char → Option Nat
  | [], _ => Option.none
  | p :: ps, t =>
    match searchPat p t with
    | some i => some i
    | Option.none => findFirstStart ps t

/-- Largest index `j ≥ 1` in `run` holding a newline (the backtracking
target of `\s+\n` inside one whitespace run). -/
def lastNlIdxGe1 (run : List Char) : Option Nat :=
  ((List.range run.length).filter fun j =>
    decide (1 ≤ j) && (run.getD j ' ' == '\n')).getLast?

/-- Model of `re.sub(r"\s+\n", "\n", text)`: inside each maximal
whitespace run, the prefix up to the last newline at index ≥ 1 collapses
to a single newline; runs without such a newline are kept.  The fuel
argument only bounds the recursion (each step consumes at least one
character, so a fuel equal to the length never runs out). -/
def subWsNlFuel : Nat → List Char → List Char
  | _, [] => []
  | 0, l => l
  | fuel + 1, c :: rest =>
    if isSpaceP c then
      match lastNlIdxGe1 (c :: rest.takeWhile isSpaceP) with
      | some j => '\n' :: subWsNlFuel fuel (rest.drop j)
      | Option.none => c :: subWsNlFuel fuel rest
    else c :: subWsNlFuel fuel rest

/-- The whitespace-before-newline normalization applied by the extractor. -/
def subWsNl (l : List Char) : List Char := subWsNlFuel l.length l

/-- Sentence-terminator class `[\.!?。．\n]` of the split regex. -/
def sentTerminator (c : Char) : Bool :=
  c == '.' || c == '!' || c == '?' || c == '。' || c == '．' || c == '\n'

/-- Scan of `re.split(r"(?<=[\.!?。．\n])\s+", chunk)`: a maximal
whitespace run whose preceding character is a terminator separates two
sentences and is consumed.  The fuel argument only bounds the recursion
(each step consumes at least one character). -/
def sentSplitFuel : Nat → Option Char → List Char → List Char → List (List Char)
  | _, _, acc, [] => [acc.reverse]
  | 0, _, acc, _ => [acc.reverse]
  | fuel + 1, prev, acc, c :: rest =>
    if isSpaceP c && (match prev with | some p => sentTerminator p | Option.none => false) then
      acc.reverse :: sentSplitFuel fuel (some ' ') [] (rest.dropWhile isSpaceP)
    else
      sentSplitFuel fuel (some c) (c :: acc) rest

/-- The sentence split of the extractor. -/
def sentSplit (chunk : List Char) : List (List Char) :=
  sentSplitFuel chunk.length Option.none [] chunk

/-- Model of `re.sub(r"\s+", " ", out)`: collapse each maximal whitespace
run to one space.  The fuel argument only bounds the recursion. -/
def collapseWsFuel : Nat → List Char → List Char
  | _, [] => []
  | 0, l => l
  | fuel + 1, c :: rest =>
    if isSpaceP c then ' ' :: collapseWsFuel fuel (rest.dropWhile isSpaceP)
    else c :: collapseWsFuel fuel rest

/-- The whitespace collapse applied to the joined sentences. -/
def collapseWs (l : List Char) : List Char := collapseWsFuel l.length l

/-- Model of `str.strip()` restricted to whitespace. -/
def stripWs (s : List Char) : List Char :=
  ((s.dropWhile isSpaceP).reverse.dropWhile isSpaceP).reverse

/-- Join the first three sentences, collapse whitespace, strip: the `out`
value of the extractor before truncation. -/
def assembleExcerpt (chunk : List Char) : List Char :=
  stripWs (collapseWs (List.intercalate [' '] ((sentSplit chunk).take 3)))

/-- The final truncation: over `max_chars` characters, cut to `max_chars`
and append the one-character ellipsis marker. -/
def truncateExcerpt (out : List Char) (max_chars : Nat) : List Char :=
  if max_chars < out.length then out.take max_chars ++ ['…'] else out

/-- Embedding of `extract_main_theorem_from_text(text, max_chars=700)`. -/
def extract_main_theorem_from_text (text : List Char) (max_chars : Nat := 700) :
    List Char :=
  let t := subWsNl text
  match findFirstStart _DEF_THEOREM_PATTERNS t with
  | some s => truncateExcerpt (assembleExcerpt ((t.drop s).take 2000)) max_chars
  | Option.none => []

/-- Oracle for the effectful steps of `extract_main_theorem`: the outcome
of the HTTP fetch together with `raise_for_status` and the `open`/`write`
pair, the outcome of the pdfminer `extract_text` call (`Except` for a
raised error, the inner `Option` for its possible `None` result), and
whether the `os.remove` cleanup would fail. -/
structure ExtractOracle where
  fetch : Except Unit (List Char)
  extract_text : Except Unit (Option (List Char))
  removeFails : Bool

/-- Observable outcome of one `extract_main_theorem` call: the value
returned to the caller (an `Except.error` would model a propagated
exception), whether the transient file was created, and whether its
removal was attempted. -/
structure ExtractOutcome where
  result : Except Unit (List Char)
  fileWritten : Bool
  removeAttempted : Bool

/-- Embedding of `extract_main_theorem(pdf_url)`: a falsy `pdf_url`
returns before the `try` block; inside it, any failure is caught and
turned into the empty string, and the `finally` clause attempts the
removal on every path, itself guarded by a `try/except pass`. -/
def extract_main_theorem (pdf_url : Option (List Char)) (w : ExtractOracle) :
    ExtractOutcome :=
  match pdf_url with
  | Option.none => ⟨.ok [], false, false⟩
  | some [] => ⟨.ok [], false, false⟩
  | some (_ :: _) =>
    let body : Except Unit (List Char) × Bool :=
      match w.fetch with
      | .error e => (.error e, false)
      | .ok _content =>
        match w.extract_text with
        | .error e => (.error e, true)
        | .ok txt =>
          let text := txt.getD []
          let text := if 20000 < text.length then text.take 20000 else text
          (.ok (extract_main_theorem_from_text text), true)
    match body with
    | (.error _, written) => ⟨.ok [], written, true⟩
    | (.ok s, written) => ⟨.ok s, written, true⟩

/-- One rendered detail block, as assembled in `main` before `build_pdf`. -/
structure DetailedItem where
  title : List Char
  authors : List (List Char)
  abs_url : List Char
  theoremText : List Char
deriving DecidableEq

/-- Slice `items[:max_details]`. -/
def topItems (items : List (Entry × ℚ)) (max_details : Nat) : List (Entry × ℚ) :=
  items.take max_details

/-- Slice `items[max_details:]`. -/
def otherItems (items : List (Entry × ℚ)) (max_details : Nat) : List (Entry × ℚ) :=
  items.drop max_details

/-- The detail-assembly loop of `main`; `thmOf` stands for the
`extract_main_theorem` call on the entry. -/
def buildDetailed (top : List (Entry × ℚ)) (thmOf : Entry × ℚ → List Char) :
    List DetailedItem :=
  top.map fun p => ⟨p.1.title, p.1.authors, p.1.abs_url, thmOf p⟩

/-- Assignment `other_titles = [e["title"] for e in others] if
include_others_titles else []` of `main`. -/
def otherTitlesOf (others : List (Entry × ℚ)) (flag : Bool) : List (List Char) :=
  if flag then others.map fun p => p.1.title else []

/-- The literal zero-results line drawn by `build_pdf`. -/
def zeroResultsMsg : List Char := (r"今週のピックアップは 0件 でした。").toList

/-- The lines drawn for one detail block (the numbering prefix and the
line wrapping are layout, abstracted away; the drawn strings are kept). -/
def detailLines (it : DetailedItem) : List (List Char) :=
  [it.title,
    (r"著者: ").toList ++ List.intercalate ((r", ").toList) it.authors,
    (r"URL: ").toList ++ it.abs_url] ++
  (if it.theoremText = [] then [(r"主定理（自動抽出）: 見つかりませんでした。").toList]
   else [(r"主定理（自動抽出）:").toList, it.theoremText])

/-- Content model of the document `build_pdf` draws: the sequence of
strings passed to `draw_text`, with pagination abstracted away. -/
def build_pdf_lines (title : List Char) (top_details : List DetailedItem)
    (other_titles : List (List Char)) : List (List Char) :=
  [title] ++
  (if top_details = [] ∧ other_titles = [] then [zeroResultsMsg]
   else
    (top_details.flatMap detailLines) ++
    (if other_titles = [] then []
     else (r"その他の候補（タイトルのみ）:").toList ::
       other_titles.map fun t => '-' :: ' ' :: t))

/-- Embedding of `build_pdf`: the output path `os.path.join("out", filename)`
and the drawn document content. -/
def build_pdf (filename title : List Char) (top_details : List DetailedItem)
    (other_titles : List (List Char)) : List Char × List (List Char) :=
  ((r"out/").toList ++ filename, build_pdf_lines title top_details other_titles)

/-- The JSON summary printed by `main`. -/
structure Summary where
  picked_count : Nat
  detailed_count : Nat
  others_count : Nat
  pdf : List Char
deriving DecidableEq

/-- The tail of `main` after fetching and lookback filtering: score and
rank, split at `max_details`, assemble details (with `thmOf` standing for
the per-entry extraction), render, and report the summary. -/
def mainAfterFetch (entries : List Entry) (cfg : Cfg)
    (thmOf : Entry × ℚ → List Char) (fname title : List Char) :
    Summary × List (List Char) :=
  let items := rankItems entries cfg
  let top := topItems items cfg.limits.max_details
  let others := otherItems items cfg.limits.max_details
  let detailed := buildDetailed top thmOf
  let other_titles := otherTitlesOf others cfg.output.include_others_titles
  let pl := build_pdf fname title detailed other_titles
  (⟨items.length, detailed.length, other_titles.length, pl.1⟩, pl.2)

/-- A minimal entry with the given title and summary. -/
def mkEntry (title summary : List Char) : Entry :=
  ⟨[], title, summary, [], PyVal.none, PyVal.none, [], [], Option.none⟩

/-- Concrete test entry. -/
def entryA : Entry := mkEntry ((r"alpha").toList) []

/-- Concrete test entry. -/
def entryB : Entry := mkEntry ((r"beta").toList) []

/-- Concrete test configuration: empty profile, unit weights, threshold 0. -/
def cfg0 : Cfg :=
  ⟨⟨[], [], [], []⟩, ⟨1, 1, 1, 1 / 2, 0⟩, ⟨100, 7, 3⟩, ⟨(r"ag_weekly").toList, true⟩⟩

/-- Concrete test configuration with threshold 1 (nothing qualifies). -/
def cfgT1 : Cfg :=
  ⟨⟨[], [], [], []⟩, ⟨1, 1, 1, 1 / 2, 1⟩, ⟨100, 7, 3⟩, ⟨(r"ag_weekly").toList, true⟩⟩

/-- Entry whose `updated` is a parseable but offset-naive timestamp. -/
def eNaive : Entry :=
  { mkEntry ((r"t").toList) [] with updated := PyVal.str ((r"2024-01-01T00:00:00").toList) }

/-- Entry with one naive and one aware parseable timestamp. -/
def eMixed : Entry :=
  { mkEntry ((r"t").toList) [] with
      updated := PyVal.str ((r"2024-01-02T00:00:00").toList),
      published := PyVal.str ((r"2024-01-01T00:00:00Z").toList) }

/-- Entry whose `updated` is an aware timestamp (`Z` suffix). -/
def eAware : Entry :=
  { mkEntry ((r"t").toList) [] with updated := PyVal.str ((r"2024-01-01T00:00:00Z").toList) }

/-- UTC timestamp of 2024-01-01T00:00:00Z. -/
def now0 : ℤ := 1704067200

/-- The concrete extractor input of the specification. -/
def textThm1 : List Char := (r"Theorem 1: Every curve has genus...").toList

/-- A concrete extractor input whose assembled excerpt has 701
characters. -/
def textLong : List Char := (r"Theorem 1: ").toList ++ List.replicate 690 'a'

/-! ### Helper lemmas -/

theorem foldl_step_sum {α : Type} (step : ℚ → α → ℚ) (f : α → ℚ)
    (h : ∀ s x, step s x = s + f x) :
    ∀ (l : List α) (init : ℚ), l.foldl step init = init + (l.map f).sum := by
  intro l
  induction l with
  | nil => intro init; simp
  | cons x xs ih =>
    intro init
    simp only [List.foldl_cons, List.map_cons, List.sum_cons, h]
    rw [ih]
    ring

theorem map_pen_sum {α : Type} (p : α → Bool) :
    ∀ l : List α,
      (l.map fun x => if p x then (-2 : ℚ) else 0).sum =
        -2 * ((l.filter p).length : ℚ) := by
  intro l
  induction l with
  | nil => simp
  | cons x xs ih =>
    by_cases hx : p x
    · simp only [List.map_cons, List.sum_cons, List.filter_cons, hx, if_pos,
        List.length_cons, ih]
      push_cast
      ring
    · simp [List.filter_cons, hx, ih]

theorem kwStep_eq (cfg : Cfg) (title abstr : List Char) (s : ℚ) (kw : Keyword) :
    kwStep cfg title abstr s kw = s + kwContrib cfg title abstr kw := by
  simp only [kwStep, kwContrib]
  split_ifs <;> ring

theorem auStep_eq (cfg : Cfg) (authors : List Char) (s : ℚ) (au : PriorityAuthor) :
    auStep cfg authors s au = s + auContrib cfg authors au := by
  simp only [auStep, auContrib]
  split_ifs <;> ring

theorem msStep_eq (cfg : Cfg) (cats : List Char) (s : ℚ) (ms : MscTerm) :
    msStep cfg cats s ms = s + msContrib cfg cats ms := by
  simp only [msStep, msContrib]
  split_ifs <;> ring

theorem exStep_eq (title abstr : List Char) (s : ℚ) (bad : List Char) :
    exStep title abstr s bad =
      s + (if exMatches title abstr bad then (-2 : ℚ) else 0) := by
  simp only [exStep]
  split_ifs <;> ring

/-- The additive closed form of `score_entry`, shared by several claims. -/
theorem score_entry_sum (e : Entry) (cfg : Cfg) :
    score_entry e cfg =
      (cfg.profile.keywords.map (kwContrib cfg (lowerL e.title) (lowerL e.summary))).sum +
      (cfg.profile.authors_priority.map (auContrib cfg (lowerL (joinSpace e.authors)))).sum +
      (cfg.profile.msc_terms.map (msContrib cfg (lowerL (joinSpace e.categories)))).sum -
      2 * ((cfg.profile.exclude.filter (exMatches (lowerL e.title) (lowerL e.summary))).length : ℚ) := by
  simp only [score_entry]
  rw [foldl_step_sum (kwStep cfg (lowerL e.title) (lowerL e.summary))
      (kwContrib cfg (lowerL e.title) (lowerL e.summary))
      (kwStep_eq cfg (lowerL e.title) (lowerL e.summary)),
    foldl_step_sum (auStep cfg (lowerL (joinSpace e.authors)))
      (auContrib cfg (lowerL (joinSpace e.authors)))
      (auStep_eq cfg (lowerL (joinSpace e.authors))),
    foldl_step_sum (msStep cfg (lowerL (joinSpace e.categories)))
      (msContrib cfg (lowerL (joinSpace e.categories)))
      (msStep_eq cfg (lowerL (joinSpace e.categories))),
    foldl_step_sum (exStep (lowerL e.title) (lowerL e.summary))
      (fun bad => if exMatches (lowerL e.title) (lowerL e.summary) bad then (-2 : ℚ) else 0)
      (exStep_eq (lowerL e.title) (lowerL e.summary)),
    map_pen_sum]
  ring

theorem containsSub_nil (l : List Char) : containsSub [] l = true := by
  cases l <;> simp [containsSub, startsWithL]

theorem kwContrib_scoring (p : Profile) (cfg : Cfg) :
    kwContrib { cfg with profile := p } = kwContrib cfg := rfl

theorem auContrib_scoring (p : Profile) (cfg : Cfg) :
    auContrib { cfg with profile := p } = auContrib cfg := rfl

theorem msContrib_scoring (p : Profile) (cfg : Cfg) :
    msContrib { cfg with profile := p } = msContrib cfg := rfl

/-! ### Claim theorems -/

/-- C1: for every entry and profile, `score_entry` returns the sum,
starting at 0.0, of the title and abstract keyword bonuses (both additive
for the same term), the priority-author bonuses, the category bonuses,
minus a fixed 2.0 for each exclude term appearing in the lower-cased
title or summary, counted once per matching term. -/
theorem score_entry_spec (e : Entry) (cfg : Cfg) :
    score_entry e cfg =
      (cfg.profile.keywords.map (kwContrib cfg (lowerL e.title) (lowerL e.summary))).sum +
      (cfg.profile.authors_priority.map (auContrib cfg (lowerL (joinSpace e.authors)))).sum +
      (cfg.profile.msc_terms.map (msContrib cfg (lowerL (joinSpace e.categories)))).sum -
      2 * ((cfg.profile.exclude.filter (exMatches (lowerL e.title) (lowerL e.summary))).length : ℚ) :=
  score_entry_sum e cfg

/-- C10: an empty profile term matches every string under the substring
tests of `score_entry`: appending an empty keyword raises every score by
its title and abstract bonus, an empty priority-author name adds the
author bonus, and an empty exclude term subtracts the fixed 2.0. -/
theorem empty_terms_spec (e : Entry) (cfg : Cfg) (w : ℚ) :
    score_entry e { cfg with profile :=
        { cfg.profile with keywords := cfg.profile.keywords ++ [⟨[], w⟩] } } =
      score_entry e cfg + w * cfg.scoring.title_weight + w * cfg.scoring.abstract_weight ∧
    score_entry e { cfg with profile :=
        { cfg.profile with authors_priority := cfg.profile.authors_priority ++ [⟨[], w⟩] } } =
      score_entry e cfg + w * cfg.scoring.author_weight ∧
    score_entry e { cfg with profile :=
        { cfg.profile with exclude := cfg.profile.exclude ++ [[]] } } =
      score_entry e cfg - 2 := by
  refine ⟨?_, ?_, ?_⟩
  · rw [score_entry_sum, score_entry_sum]
    simp only [kwContrib_scoring, auContrib_scoring, msContrib_scoring]
    simp [kwContrib, auContrib, msContrib, exMatches, containsSub_nil, lowerL,
      List.filter_append]
    ring
  · rw [score_entry_sum, score_entry_sum]
    simp only [kwContrib_scoring, auContrib_scoring, msContrib_scoring]
    simp [kwContrib, auContrib, msContrib, exMatches, containsSub_nil, lowerL,
      List.filter_append]
    ring
  · rw [score_entry_sum, score_entry_sum]
    simp only [kwContrib_scoring, auContrib_scoring, msContrib_scoring]
    simp [kwContrib, auContrib, msContrib, exMatches, containsSub_nil, lowerL,
      List.filter_append]
    ring

theorem scoreDesc_trans (x y z : Entry × ℚ) (h1 : scoreDescBool x y = true)
    (h2 : scoreDescBool y z = true) : scoreDescBool x z = true := by
  simp only [scoreDescBool, decide_eq_true_eq] at h1 h2 ⊢
  exact le_trans h2 h1

theorem scoreDesc_total (x y : Entry × ℚ) :
    scoreDescBool x y || scoreDescBool y x := by
  simp only [scoreDescBool, Bool.or_eq_true, decide_eq_true_eq]
  exact le_total y.2 x.2

/-- C2: the ranked list holds exactly the entries whose score reaches the
threshold, in non-increasing score order, and equal scores keep their
relative order from the filtered input (stable sort, no secondary key). -/
theorem ranked_spec (entries : List Entry) (cfg : Cfg) :
    List.Perm (rankItems entries cfg) (scoreListed entries cfg) ∧
    (∀ e : Entry, (e, score_entry e cfg) ∈ rankItems entries cfg ↔
      e ∈ entries ∧ cfg.scoring.threshold ≤ score_entry e cfg) ∧
    (∀ p ∈ rankItems entries cfg, cfg.scoring.threshold ≤ p.2) ∧
    (rankItems entries cfg).Pairwise (fun a b => b.2 ≤ a.2) ∧
    (∀ a b : Entry × ℚ, List.Sublist [a, b] (scoreListed entries cfg) → a.2 = b.2 →
      List.Sublist [a, b] (rankItems entries cfg)) := by
  refine ⟨?_, ?_, ?_, ?_, ?_⟩
  · exact List.mergeSort_perm (scoreListed entries cfg) scoreDescBool
  · intro e
    simp only [rankItems, List.mem_mergeSort, scoreListed, List.mem_filter,
      List.mem_map, decide_eq_true_eq]
    constructor
    · rintro ⟨⟨e', he', heq⟩, hth⟩
      obtain ⟨rfl, -⟩ := Prod.mk.injEq .. ▸ heq
      exact ⟨he', hth⟩
    · rintro ⟨he, hth⟩
      exact ⟨⟨e, he, rfl⟩, hth⟩
  · intro p hp
    simp only [rankItems, List.mem_mergeSort, scoreListed, List.mem_filter,
      decide_eq_true_eq] at hp
    exact hp.2
  · exact (List.sorted_mergeSort scoreDesc_trans scoreDesc_total
      (scoreListed entries cfg)).imp fun h => of_decide_eq_true h
  · intro a b hsub heq
    refine List.sublist_mergeSort scoreDesc_trans scoreDesc_total ?_ hsub
    refine List.pairwise_cons.mpr ⟨?_, by simp⟩
    intro c hc
    rw [List.mem_singleton] at hc
    subst hc
    simpa [scoreDescBool] using le_of_eq heq.symm

/-- C2 witness: two tied entries at the threshold keep their input order
in the ranked output. -/
theorem ranked_witness :
    List.Sublist [(entryA, (0 : ℚ)), (entryB, 0)] (rankItems [entryA, entryB] cfg0) := by
  have hsc : scoreListed [entryA, entryB] cfg0 = [(entryA, (0 : ℚ)), (entryB, 0)] := rfl
  exact (ranked_spec [entryA, entryB] cfg0).2.2.2.2 (entryA, (0 : ℚ)) (entryB, 0)
    (hsc ▸ List.Sublist.refl _) rfl

/-- C3 (amended): the lookback filter takes the later of the parseable
timestamps, includes on neither parsing (fail-open), and — provided the
parseable timestamps carry a UTC offset — includes exactly when the
floored day difference is at most `N`: exactly `N` days old is included
and exactly `N + 1` days old is excluded.  (A parseable offset-naive
timestamp instead raises `TypeError`; see the counterexample.) -/
theorem in_lookback_spec (e : Entry) (days nowTs : ℤ) :
    (parse_iso e.updated = Option.none → parse_iso e.published = Option.none →
      in_lookback e days nowTs = .ok true) ∧
    (∀ d : PyDateTime, d.aware = true →
      ((parse_iso e.updated = some d ∧ parse_iso e.published = Option.none) ∨
        (parse_iso e.updated = Option.none ∧ parse_iso e.published = some d)) →
      in_lookback e days nowTs =
        .ok (decide (Int.fdiv (nowTs - d.ts) 86400 ≤ days))) ∧
    (∀ d1 d2 : PyDateTime, d1.aware = true → d2.aware = true →
      parse_iso e.updated = some d1 → parse_iso e.published = some d2 →
      in_lookback e days nowTs =
        .ok (decide (Int.fdiv (nowTs - max d1.ts d2.ts) 86400 ≤ days))) ∧
    (∀ d : PyDateTime, d.aware = true → parse_iso e.updated = some d →
      parse_iso e.published = Option.none → d.ts = nowTs - days * 86400 →
      in_lookback e days nowTs = .ok true) ∧
    (∀ d : PyDateTime, d.aware = true → parse_iso e.updated = some d →
      parse_iso e.published = Option.none → d.ts = nowTs - (days + 1) * 86400 →
      in_lookback e days nowTs = .ok false) := by
  refine ⟨?_, ?_, ?_, ?_, ?_⟩
  · intro hu hp
    simp [in_lookback, hu, hp]
  · rintro d hd (⟨hu, hp⟩ | ⟨hu, hp⟩) <;> simp [in_lookback, hu, hp, lookbackOf, hd]
  · intro d1 d2 h1 h2 hu hp
    simp only [in_lookback, hu, hp, pyMaxDT, h1, h2, if_pos rfl]
    by_cases hlt : d1.ts < d2.ts
    · simp [hlt, lookbackOf, h2, max_eq_right hlt.le]
    · simp [hlt, lookbackOf, h1, max_eq_left (not_lt.mp hlt)]
  · intro d hd hu hp hts
    have hdiv : Int.fdiv (nowTs - d.ts) 86400 = days := by
      rw [hts]
      have : nowTs - (nowTs - days * 86400) = days * 86400 := by ring
      rw [this]
      exact Int.mul_fdiv_cancel days (by norm_num)
    simp [in_lookback, hu, hp, lookbackOf, hd, hdiv]
  · intro d hd hu hp hts
    have hdiv : Int.fdiv (nowTs - d.ts) 86400 = days + 1 := by
      rw [hts]
      have : nowTs - (nowTs - (days + 1) * 86400) = (days + 1) * 86400 := by ring
      rw [this]
      exact Int.mul_fdiv_cancel (days + 1) (by norm_num)
    simp [in_lookback, hu, hp, lookbackOf, hd, hdiv]

/-- C3 witness: an entry updated exactly 7 days before now (aware
timestamp) is included. -/
theorem in_lookback_witness :
    in_lookback eAware 7 (now0 + 7 * 86400) = .ok true := by
  refine (in_lookback_spec eAware 7 (now0 + 7 * 86400)).2.2.2.1
    ⟨1704067200, true⟩ rfl rfl rfl ?_
  decide

/-- C3 counterexample: `updated = "2024-01-01T00:00:00"` parses (naive,
candidate timestamp 1704067200) and is 0 days old, so the claim demands
inclusion, but the code raises `TypeError` on the aware-minus-naive
subtraction instead of returning. -/
theorem in_lookback_naive_cex :
    Int.fdiv (now0 - 1704067200) 86400 ≤ 7 ∧
    in_lookback eNaive 7 now0 = .error PyErr.typeError ∧
    in_lookback eNaive 7 now0 ≠ .ok true := by
  refine ⟨by decide, rfl, ?_⟩
  intro h
  rw [show in_lookback eNaive 7 now0 = .error PyErr.typeError from rfl] at h
  cases h

/-- C9 (amended): `in_lookback` returns a Boolean and never raises
provided every parseable timestamp carries a UTC offset; a missing key,
`None`, a non-string and a malformed string all fail parsing and are
treated as an absent timestamp.  (Parseable offset-naive timestamps make
it raise; see the counterexample.) -/
theorem in_lookback_total (e : Entry) (days nowTs : ℤ)
    (h : ∀ d ∈ parsedTimestamps e, d.aware = true) :
    (∃ b, in_lookback e days nowTs = .ok b) ∧
    parse_iso PyVal.none = Option.none ∧
    parse_iso PyVal.nonStr = Option.none ∧
    parse_iso (PyVal.str []) = Option.none ∧
    parse_iso (PyVal.str ((r"not a date").toList)) = Option.none ∧
    parse_iso (PyVal.str ((r"2024-13-01T00:00:00Z").toList)) = Option.none := by
  refine ⟨?_, rfl, rfl, rfl, rfl, rfl⟩
  cases hu : parse_iso e.updated with
  | none =>
    cases hp : parse_iso e.published with
    | none => exact ⟨true, by simp [in_lookback, hu, hp]⟩
    | some d =>
      have hd : d.aware = true := h d (by simp [parsedTimestamps, hu, hp])
      exact ⟨decide (Int.fdiv (nowTs - d.ts) 86400 ≤ days),
        by simp [in_lookback, hu, hp, lookbackOf, hd]⟩
  | some d =>
    have hd : d.aware = true := h d (by simp [parsedTimestamps, hu])
    cases hp : parse_iso e.published with
    | none =>
      exact ⟨decide (Int.fdiv (nowTs - d.ts) 86400 ≤ days),
        by simp [in_lookback, hu, hp, lookbackOf, hd]⟩
    | some d2 =>
      have hd2 : d2.aware = true := h d2 (by simp [parsedTimestamps, hu, hp])
      have hm : (if d.ts < d2.ts then d2 else d).aware = true := by
        split <;> assumption
      exact ⟨decide (Int.fdiv (nowTs - (if d.ts < d2.ts then d2 else d).ts) 86400 ≤ days),
        by simp [in_lookback, hu, hp, pyMaxDT, hd, hd2, lookbackOf, hm]⟩

/-- C9 witness: on an aware timestamp the filter returns a Boolean and
the degenerate parses are all treated as absent. -/
theorem in_lookback_total_witness :
    (∃ b, in_lookback eAware 7 now0 = .ok b) ∧
    parse_iso PyVal.none = Option.none ∧
    parse_iso PyVal.nonStr = Option.none ∧
    parse_iso (PyVal.str []) = Option.none ∧
    parse_iso (PyVal.str ((r"not a date").toList)) = Option.none ∧
    parse_iso (PyVal.str ((r"2024-13-01T00:00:00Z").toList)) = Option.none :=
  in_lookback_total eAware 7 now0 (by decide)

/-- C9 counterexample: with one naive and one aware parseable timestamp
the `max` comparison raises `TypeError`, so `in_lookback` does not return
a Boolean for this entry. -/
theorem in_lookback_mixed_cex :
    in_lookback eMixed 7 now0 = .error PyErr.typeError ∧
    ∀ b : Bool, in_lookback eMixed 7 now0 ≠ .ok b := by
  refine ⟨rfl, ?_⟩
  intro b h
  rw [show in_lookback eMixed 7 now0 = .error PyErr.typeError from rfl] at h
  cases h

theorem findFirstStart_of (t : List Char) :
    ∀ (ps : List MatchPred) (i : Nat) (p : MatchPred) (s : Nat),
      ps[i]? = some p →
      (∀ j q, j < i → ps[j]? = some q → searchPat q t = Option.none) →
      searchPat p t = some s →
      findFirstStart ps t = some s := by
  intro ps
  induction ps with
  | nil => intro i p s hp; simp at hp
  | cons hd tl ih =>
    intro i p s hp hnone hs
    cases i with
    | zero =>
      rw [List.getElem?_cons_zero] at hp
      cases hp
      simp [findFirstStart, hs]
    | succ n =>
      have h0 : searchPat hd t = Option.none := hnone 0 hd (Nat.succ_pos n) (by simp)
      rw [List.getElem?_cons_succ] at hp
      simp only [findFirstStart, h0]
      exact ih n p s hp
        (fun j q hj hq => hnone (j + 1) q (Nat.succ_lt_succ hj)
          (by rwa [List.getElem?_cons_succ])) hs

theorem findFirstStart_none (t : List Char) :
    ∀ ps : List MatchPred, (∀ p ∈ ps, searchPat p t = Option.none) →
      findFirstStart ps t = Option.none := by
  intro ps
  induction ps with
  | nil => intro _; rfl
  | cons hd tl ih =>
    intro h
    have h0 : searchPat hd t = Option.none := h hd (by simp)
    simp only [findFirstStart, h0]
    exact ih fun p hp => h p (by simp [hp])

/-- C4: the extractor tries the fixed pattern list strictly in priority
order and the first matching pattern wins; on the concrete text
`"Theorem 1: Every curve has genus..."` (which the higher-priority
Main-Theorem pattern does not match) the excerpt starts with
`"Theorem 1:"`; a text matching no pattern yields the empty string. -/
theorem extractor_priority_spec :
    (∀ (text : List Char) (i : Nat) (p : MatchPred) (s : Nat),
      _DEF_THEOREM_PATTERNS[i]? = some p →
      (∀ j q, j < i → _DEF_THEOREM_PATTERNS[j]? = some q →
        searchPat q (subWsNl text) = Option.none) →
      searchPat p (subWsNl text) = some s →
      extract_main_theorem_from_text text =
        truncateExcerpt (assembleExcerpt (((subWsNl text).drop s).take 2000)) 700) ∧
    (searchPat matchMainTheorem (subWsNl textThm1) = Option.none ∧
      extract_main_theorem_from_text textThm1 = textThm1 ∧
      startsWithL ((r"Theorem 1:").toList) (extract_main_theorem_from_text textThm1) = true) ∧
    (∀ text : List Char,
      (∀ p ∈ _DEF_THEOREM_PATTERNS, searchPat p (subWsNl text) = Option.none) →
      extract_main_theorem_from_text text = []) := by
  refine ⟨?_, ⟨?_, ?_, ?_⟩, ?_⟩
  · intro text i p s hp hnone hs
    simp only [extract_main_theorem_from_text]
    rw [findFirstStart_of (subWsNl text) _DEF_THEOREM_PATTERNS i p s hp hnone hs]
  · rfl
  · rfl
  · rfl
  · intro text h
    simp only [extract_main_theorem_from_text]
    rw [findFirstStart_none (subWsNl text) _DEF_THEOREM_PATTERNS h]

/-- C4 witness: on the concrete text, pattern 1 fails, pattern 2 matches
at position 0, and the extractor output is the processed chunk from
there. -/
theorem extractor_priority_witness :
    extract_main_theorem_from_text textThm1 =
      truncateExcerpt (assembleExcerpt (((subWsNl textThm1).drop 0).take 2000)) 700 := by
  refine extractor_priority_spec.1 textThm1 1 matchTheoremNum 0
    (by simp [_DEF_THEOREM_PATTERNS]) ?_ (by rfl)
  intro j q hj hq
  cases j with
  | zero =>
    simp only [_DEF_THEOREM_PATTERNS, List.getElem?_cons_zero, Option.some.injEq] at hq
    subst hq
    rfl
  | succ n => omega

/-- C5 (amended): every excerpt has at most 701 characters — at most 700
text characters plus the one-character ellipsis marker — and an assembled
excerpt longer than 700 characters is cut to exactly 700 characters plus
the marker. -/
theorem excerpt_length_spec :
    (∀ text : List Char, (extract_main_theorem_from_text text).length ≤ 701) ∧
    (∀ out : List Char, 700 < out.length →
      truncateExcerpt out 700 = out.take 700 ++ ['…'] ∧
      (truncateExcerpt out 700).length = 701) := by
  constructor
  · intro text
    simp only [extract_main_theorem_from_text]
    cases h : findFirstStart _DEF_THEOREM_PATTERNS (subWsNl text) with
    | none => simp
    | some s =>
      simp only [truncateExcerpt]
      split
      · rename_i hlen
        simp only [List.length_append, List.length_take, List.length_cons,
          List.length_nil]
        omega
      · rename_i hlen
        omega
  · intro out h
    refine ⟨by simp [truncateExcerpt, h], ?_⟩
    simp only [truncateExcerpt, if_pos h, List.length_append, List.length_take,
      List.length_cons, List.length_nil]
    omega

set_option maxRecDepth 100000 in
/-- C5 witness: a concrete over-long assembled excerpt is cut to 700
characters plus the marker. -/
theorem excerpt_length_witness :
    truncateExcerpt textLong 700 = textLong.take 700 ++ ['…'] ∧
    (truncateExcerpt textLong 700).length = 701 :=
  excerpt_length_spec.2 textLong (by decide)

set_option maxRecDepth 100000 in
/-- C5 counterexample: on a concrete input the returned excerpt has 701
characters, so the stated bound of at most 700 characters fails. -/
theorem excerpt_701_cex :
    ¬ ((extract_main_theorem_from_text textLong).length ≤ 700) := by
  have h : (extract_main_theorem_from_text textLong).length = 701 := by decide
  omega

/-- C6: `extract_main_theorem` never propagates an error: every failure
(and a falsy `pdf_url`) yields the empty string, the transient-file
removal is attempted on every path that entered the `try` block, and a
removal failure does not influence the returned value. -/
theorem extract_never_raises (url : Option (List Char)) (w : ExtractOracle) :
    (∃ s, (extract_main_theorem url w).result = .ok s) ∧
    (url = Option.none → extract_main_theorem url w = ⟨.ok [], false, false⟩) ∧
    (url = some [] → extract_main_theorem url w = ⟨.ok [], false, false⟩) ∧
    (∀ c cs, url = some (c :: cs) →
      (extract_main_theorem url w).removeAttempted = true) ∧
    (∀ c cs, url = some (c :: cs) → w.fetch = .error () →
      (extract_main_theorem url w).result = .ok []) ∧
    (∀ c cs, url = some (c :: cs) → w.extract_text = .error () →
      (extract_main_theorem url w).result = .ok []) ∧
    (∀ b, (extract_main_theorem url { w with removeFails := b }).result =
      (extract_main_theorem url w).result) := by
  refine ⟨?_, ?_, ?_, ?_, ?_, ?_, ?_⟩
  · cases url with
    | none => exact ⟨[], rfl⟩
    | some l =>
      cases l with
      | nil => exact ⟨[], rfl⟩
      | cons c cs =>
        cases hf : w.fetch with
        | error e => exact ⟨[], by simp [extract_main_theorem, hf]⟩
        | ok content =>
          cases hx : w.extract_text with
          | error e => exact ⟨[], by simp [extract_main_theorem, hf, hx]⟩
          | ok txt =>
            exact ⟨extract_main_theorem_from_text
                (if 20000 < (txt.getD []).length then List.take 20000 (txt.getD [])
                  else txt.getD []),
              by simp [extract_main_theorem, hf, hx]⟩
  · rintro rfl; rfl
  · rintro rfl; rfl
  · intro c cs hurl
    subst hurl
    cases hf : w.fetch with
    | error e => simp [extract_main_theorem, hf]
    | ok content =>
      cases hx : w.extract_text with
      | error e => simp [extract_main_theorem, hf, hx]
      | ok txt => simp [extract_main_theorem, hf, hx]
  · intro c cs hurl hf
    subst hurl
    simp [extract_main_theorem, hf]
  · intro c cs hurl hx
    subst hurl
    cases hf : w.fetch with
    | error e => simp [extract_main_theorem, hf]
    | ok content => simp [extract_main_theorem, hf, hx]
  · intro b
    cases url with
    | none => rfl
    | some l =>
      cases l with
      | nil => rfl
      | cons c cs =>
        cases hf : w.fetch with
        | error e => simp [extract_main_theorem, hf]
        | ok content =>
          cases hx : w.extract_text with
          | error e => simp [extract_main_theorem, hf, hx]
          | ok txt => simp [extract_main_theorem, hf, hx]

/-- C6 witness: with a failing fetch and a failing cleanup, the call still
returns the empty string and the removal was attempted. -/
theorem extract_never_raises_witness :
    (extract_main_theorem (some ('u' :: []))
        ⟨.error (), .error (), true⟩).result = .ok [] ∧
    (extract_main_theorem (some ('u' :: []))
        ⟨.error (), .error (), true⟩).removeAttempted = true :=
  ⟨(extract_never_raises (some ('u' :: [])) ⟨.error (), .error (), true⟩).2.2.2.2.1
      'u' [] rfl rfl,
    (extract_never_raises (some ('u' :: [])) ⟨.error (), .error (), true⟩).2.2.2.1
      'u' [] rfl⟩

/-- C7: with `max_details = 3` and five ranked qualifying items, exactly
the first three are assembled with full detail and exactly the remaining
two appear title-only (in ranked order) when the overflow-titles flag is
enabled, and none when it is disabled; the split loses no item. -/
theorem overflow_split_spec (p1 p2 p3 p4 p5 : Entry × ℚ)
    (thmOf : Entry × ℚ → List Char) :
    (∀ (items : List (Entry × ℚ)) (n : Nat),
      topItems items n ++ otherItems items n = items) ∧
    buildDetailed (topItems [p1, p2, p3, p4, p5] 3) thmOf =
      [⟨p1.1.title, p1.1.authors, p1.1.abs_url, thmOf p1⟩,
        ⟨p2.1.title, p2.1.authors, p2.1.abs_url, thmOf p2⟩,
        ⟨p3.1.title, p3.1.authors, p3.1.abs_url, thmOf p3⟩] ∧
    otherTitlesOf (otherItems [p1, p2, p3, p4, p5] 3) true =
      [p4.1.title, p5.1.title] ∧
    otherTitlesOf (otherItems [p1, p2, p3, p4, p5] 3) false = [] := by
  refine ⟨?_, ?_, ?_, ?_⟩ <;>
    simp [topItems, otherItems, buildDetailed, otherTitlesOf]

/-- C8: when no entry reaches the threshold the rendered document still
exists at the output path, contains the literal zero-results line, and the
printed summary reports a picked count of zero with that path. -/
theorem zero_results_spec (entries : List Entry) (cfg : Cfg)
    (thmOf : Entry × ℚ → List Char) (fname title : List Char)
    (h : ∀ e ∈ entries, score_entry e cfg < cfg.scoring.threshold) :
    zeroResultsMsg ∈ (mainAfterFetch entries cfg thmOf fname title).2 ∧
    (mainAfterFetch entries cfg thmOf fname title).2 ≠ [] ∧
    (mainAfterFetch entries cfg thmOf fname title).1.picked_count = 0 ∧
    (mainAfterFetch entries cfg thmOf fname title).1.pdf =
      (r"out/").toList ++ fname := by
  have hsl : scoreListed entries cfg = [] := by
    rw [scoreListed, List.filter_eq_nil_iff]
    intro p hp
    rw [List.mem_map] at hp
    obtain ⟨e, he, rfl⟩ := hp
    simpa using not_le.mpr (h e he)
  have hrank : rankItems entries cfg = [] := by
    simp [rankItems, hsl]
  refine ⟨?_, ?_, ?_, ?_⟩ <;>
    simp [mainAfterFetch, hrank, topItems, otherItems, buildDetailed,
      otherTitlesOf, build_pdf, build_pdf_lines]

/-- C8 witness: one entry scoring 0 against threshold 1 yields the
zero-results document and a zero picked count. -/
theorem zero_results_witness :
    zeroResultsMsg ∈
      (mainAfterFetch [entryA] cfgT1 (fun _ => []) ((r"f.pdf").toList)
        ((r"T").toList)).2 ∧
    (mainAfterFetch [entryA] cfgT1 (fun _ => []) ((r"f.pdf").toList)
      ((r"T").toList)).1.picked_count = 0 :=
  ⟨(zero_results_spec [entryA] cfgT1 (fun _ => []) ((r"f.pdf").toList)
      ((r"T").toList) (by decide)).1,
    (zero_results_spec [entryA] cfgT1 (fun _ => []) ((r"f.pdf").toList)
      ((r"T").toList) (by decide)).2.2.1⟩

end AGW
